import Mathlib

/-!
Verification of the settlement engine of the Group-expense-splitter app
(`src/utils/validation.ts`: `calculateBalances` and
`calculateMinimumTransactions`), shallowly embedded in Lean 4.

Currency amounts are modelled as exact rationals (`ℚ`); the JavaScript
`Math.round(x * 100) / 100` two-decimal rounding is modelled exactly as
half-up rounding on the cent value.  The dynamic `balanceMap` object with
its `balanceMap[k] || 0` default reads is modelled as a total function
`String → ℚ` defaulting to 0, which is observationally equivalent (the
code never enumerates the map's keys).
-/

set_option allowUnsafeReducibility true

attribute [local semireducible] Rat.add Rat.mul Rat.sub Rat.inv Rat.ofScientific

/-- Member as consumed by the settlement engine: id and display name
(the `color` field of the app type is never read by the engine). -/
structure Member where
  id : String
  name : String
deriving DecidableEq, Repr

/-- One split of an expense: the member owing it and the amount owed
(`itemName` is never read by the engine). -/
structure ExpenseSplit where
  memberId : String
  amount : ℚ
deriving DecidableEq, Repr

/-- Expense fields read by the engine: payer id, total amount, splits. -/
structure Expense where
  paidById : String
  amount : ℚ
  splits : List ExpenseSplit
deriving DecidableEq, Repr

/-- Settlement fields read by the engine: `fromId` pays `toId` `amount`. -/
structure Settlement where
  fromId : String
  toId : String
  amount : ℚ
deriving DecidableEq, Repr

/-- Output row of `calculateBalances`. -/
structure BalanceEntry where
  memberId : String
  memberName : String
  balance : ℚ
deriving DecidableEq, Repr

/-- Output row of `calculateMinimumTransactions`. -/
structure TransactionSuggestion where
  fromId : String
  fromName : String
  toId : String
  toName : String
  amount : ℚ
deriving DecidableEq, Repr

/-- JavaScript `Math.round`: round half up (towards +∞), as an integer. -/
def jsRound (q : ℚ) : ℤ := ⌊q + 1/2⌋

/-- Rounding to 2 decimal places, half up: the modelled form of
the source's `Math.round(q * 100) / 100`. -/
def round2 (q : ℚ) : ℚ := (jsRound (q * 100) : ℚ) / 100

/-- Point update of the balance map (`balanceMap[k] = v`). -/
def updMap (bm : String → ℚ) (k : String) (v : ℚ) : String → ℚ :=
  fun x => if x = k then v else bm x

/-- Initialization loop of the balance map: every member id is set to 0,
starting from the empty object (reads of absent keys default to 0 via
the source's use of logical-or with 0). -/
def initMap (members : List Member) : String → ℚ :=
  members.foldl (fun bm m => updMap bm m.id 0) (fun _ => 0)

/-- Process one expense: credit the payer with the full amount, then
debit each split's member by the split amount. -/
def applyExpense (bm : String → ℚ) (e : Expense) : String → ℚ :=
  let bm1 := updMap bm e.paidById (bm e.paidById + e.amount)
  e.splits.foldl (fun m s => updMap m s.memberId (m s.memberId - s.amount)) bm1

/-- Process one settlement: credit `fromId`, debit `toId`. -/
def applySettlement (bm : String → ℚ) (s : Settlement) : String → ℚ :=
  let bm1 := updMap bm s.fromId (bm s.fromId + s.amount)
  updMap bm1 s.toId (bm1 s.toId - s.amount)

/-- The internal `balanceMap` after all expenses and settlements. -/
def finalBalanceMap (members : List Member) (expenses : List Expense)
    (settlements : List Settlement) : String → ℚ :=
  settlements.foldl applySettlement
    (expenses.foldl applyExpense (initMap members))

/-- Implementation of calculateBalances from src/utils/validation.ts. -/
def calculateBalances (members : List Member) (expenses : List Expense)
    (settlements : List Settlement) : List BalanceEntry :=
  members.map (fun m =>
    { memberId := m.id
      memberName := m.name
      balance := round2 (finalBalanceMap members expenses settlements m.id) })

/-- Working entry of the minimizer: the anonymous
`{ id, name, amount }` records pushed onto `creditors` / `debtors`. -/
structure Party where
  id : String
  name : String
  amount : ℚ
deriving DecidableEq, Repr

/-- The `creditors` list: entries with balance `> 0.01`, in balance order. -/
def creditorsOf (balances : List BalanceEntry) : List Party :=
  balances.filterMap fun b =>
    if 1/100 < b.balance then some ⟨b.memberId, b.memberName, b.balance⟩
    else none

/-- The `debtors` list: entries with balance `< -0.01` (negated), in
balance order.  The source guards this with `else if`, which is
equivalent because the two conditions are mutually exclusive. -/
def debtorsOf (balances : List BalanceEntry) : List Party :=
  balances.filterMap fun b =>
    if b.balance < -(1/100) then some ⟨b.memberId, b.memberName, -b.balance⟩
    else none

/-- Insert into a descending-by-amount list, before the first strictly
smaller entry (so equal amounts keep their relative order). -/
def insertDesc (p : Party) : List Party → List Party
  | [] => [p]
  | q :: qs => if q.amount ≤ p.amount then p :: q :: qs else q :: insertDesc p qs

/-- Stable descending sort by amount, modelling
`arr.sort((a, b) => b.amount - a.amount)`.  A stable sort's output is
uniquely determined by the input and the key order, so this insertion
sort produces exactly the list the JavaScript engine's stable sort does. -/
def sortDesc : List Party → List Party
  | [] => []
  | p :: ps => insertDesc p (sortDesc ps)

/-- The greedy two-cursor `while` loop of `calculateMinimumTransactions`.
Advancing the debtor cursor is modelled by dropping the debtor list's
head, and mutating the current entry's `amount` by replacing the head.
The loop always advances at least one cursor: the side achieving
`min(debtor.amount, creditor.amount)` drops to `0 < 0.01`, so the
fourth branch below (neither remaining amount below `0.01`) is
unreachable, which is exactly the termination argument. -/
def greedy : List Party → List Party → List TransactionSuggestion
  | [], _ => []
  | _ :: _, [] => []
  | d :: ds, c :: cs =>
    (if 1/100 < min d.amount c.amount then
      [{ fromId := d.id, fromName := d.name, toId := c.id, toName := c.name,
         amount := round2 (min d.amount c.amount) }]
     else []) ++
    (if h1 : d.amount - min d.amount c.amount < 1/100 then
      if h2 : c.amount - min d.amount c.amount < 1/100 then
        greedy ds cs
      else
        greedy ds ({ c with amount := c.amount - min d.amount c.amount } :: cs)
     else
      if h2 : c.amount - min d.amount c.amount < 1/100 then
        greedy ({ d with amount := d.amount - min d.amount c.amount } :: ds) cs
      else
        greedy ({ d with amount := d.amount - min d.amount c.amount } :: ds)
               ({ c with amount := c.amount - min d.amount c.amount } :: cs))
termination_by ds cs => ds.length + cs.length
decreasing_by
· simp; omega
· simp
· simp
· exfalso
  rcases min_choice d.amount c.amount with h | h
  · exact h1 (by rw [h]; norm_num)
  · exact h2 (by rw [h]; norm_num)

/-- Implementation of calculateMinimumTransactions from
src/utils/validation.ts. -/
def calculateMinimumTransactions (members : List Member)
    (expenses : List Expense) (settlements : List Settlement) :
    List TransactionSuggestion :=
  greedy (sortDesc (debtorsOf (calculateBalances members expenses settlements)))
         (sortDesc (creditorsOf (calculateBalances members expenses settlements)))

/-- Fuel-bounded version of the greedy loop: runs at most `fuel`
iterations.  Used to show the loop needs at most
`debtors.length + creditors.length` iterations. -/
def greedyFuel : ℕ → List Party → List Party → List TransactionSuggestion
  | 0, _, _ => []
  | _ + 1, [], _ => []
  | _ + 1, _ :: _, [] => []
  | fuel + 1, d :: ds, c :: cs =>
    (if 1/100 < min d.amount c.amount then
      [{ fromId := d.id, fromName := d.name, toId := c.id, toName := c.name,
         amount := round2 (min d.amount c.amount) }]
     else []) ++
    (if d.amount - min d.amount c.amount < 1/100 then
      if c.amount - min d.amount c.amount < 1/100 then
        greedyFuel fuel ds cs
      else
        greedyFuel fuel ds ({ c with amount := c.amount - min d.amount c.amount } :: cs)
     else
      if c.amount - min d.amount c.amount < 1/100 then
        greedyFuel fuel ({ d with amount := d.amount - min d.amount c.amount } :: ds) cs
      else
        greedyFuel fuel ({ d with amount := d.amount - min d.amount c.amount } :: ds)
                        ({ c with amount := c.amount - min d.amount c.amount } :: cs))

/-- Variant of calculateMinimumTransactions with the loop explicitly
bounded by debtors.length + creditors.length iterations. -/
def calculateMinimumTransactionsFuel (members : List Member)
    (expenses : List Expense) (settlements : List Settlement) :
    List TransactionSuggestion :=
  greedyFuel
    ((debtorsOf (calculateBalances members expenses settlements)).length +
      (creditorsOf (calculateBalances members expenses settlements)).length)
    (sortDesc (debtorsOf (calculateBalances members expenses settlements)))
    (sortDesc (creditorsOf (calculateBalances members expenses settlements)))

/-- A rational that is a whole number of cents. -/
def IsCent (q : ℚ) : Prop := ∃ k : ℤ, q = k / 100

/-- Total of the expense amounts a given member paid. -/
def paidFor (expenses : List Expense) (id : String) : ℚ :=
  (expenses.map fun e => if e.paidById = id then e.amount else 0).sum

/-- Total of the split amounts of one expense assigned to a member. -/
def splitsFor (e : Expense) (id : String) : ℚ :=
  (e.splits.map fun s => if s.memberId = id then s.amount else 0).sum

/-- Total of all split amounts assigned to a member. -/
def splitSum (expenses : List Expense) (id : String) : ℚ :=
  (expenses.map fun e => splitsFor e id).sum

/-- Total of settlement amounts the member paid (as `fromId`). -/
def fromFor (settlements : List Settlement) (id : String) : ℚ :=
  (settlements.map fun s => if s.fromId = id then s.amount else 0).sum

/-- Total of settlement amounts the member received (as `toId`). -/
def toFor (settlements : List Settlement) (id : String) : ℚ :=
  (settlements.map fun s => if s.toId = id then s.amount else 0).sum

/-- The net pre-rounding balance of an identifier: expenses paid, minus
splits owed, plus settlements paid, minus settlements received. -/
def netBalance (expenses : List Expense) (settlements : List Settlement)
    (id : String) : ℚ :=
  paidFor expenses id - splitSum expenses id +
    fromFor settlements id - toFor settlements id

/-- Total amount carried by a working list. -/
def psum (l : List Party) : ℚ := (l.map Party.amount).sum

/-- Count of members whose balance is outside the settled tolerance. -/
def nonSettledCount (bs : List BalanceEntry) : ℕ :=
  bs.countP fun b => decide (1/100 < |b.balance|)

/-- Recording a suggestion as a settlement: `fromId` pays `toId` the
stated amount. -/
def sugToSettlement (t : TransactionSuggestion) : Settlement :=
  ⟨t.fromId, t.toId, t.amount⟩

/-- Total amount a given id pays across a suggestion list. -/
def emittedFrom (id : String) (txs : List TransactionSuggestion) : ℚ :=
  (txs.map fun t => if t.fromId = id then t.amount else 0).sum

/-- Total amount a given id receives across a suggestion list. -/
def emittedTo (id : String) (txs : List TransactionSuggestion) : ℚ :=
  (txs.map fun t => if t.toId = id then t.amount else 0).sum

/-- How much of a current head's amount the loop may drop without a
matching suggestion: one cent, or two when the opposite head is down to
a single cent. -/
def headAllow : List Party → ℚ
  | [] => 1/100
  | p :: _ => if p.amount < 2/100 then 2/100 else 1/100

/-- Working-list entries are whole positive cents. -/
def amountsOK (l : List Party) : Prop :=
  ∀ p ∈ l, IsCent p.amount ∧ 1/100 ≤ p.amount

/-- Entries not yet reached by the cursor still carry at least 2 cents. -/
def tailOK (l : List Party) : Prop := ∀ p ∈ l.tail, 2/100 ≤ p.amount

/-- Not both current heads are down to a single cent. -/
def headOK (ds cs : List Party) : Prop :=
  ∀ d c, ds.head? = some d → cs.head? = some c →
    2/100 ≤ d.amount ∨ 2/100 ≤ c.amount

def disjointIds (ds cs : List Party) : Prop :=
  ∀ p ∈ ds, ∀ q ∈ cs, p.id ≠ q.id

/-- Loop invariant of the greedy matcher. -/
def GInv (ds cs : List Party) : Prop :=
  amountsOK ds ∧ amountsOK cs ∧ tailOK ds ∧ tailOK cs ∧ headOK ds cs ∧
    psum ds = psum cs ∧ (ds.map Party.id).Nodup ∧ (cs.map Party.id).Nodup ∧
    disjointIds ds cs

/-- Per-entry accounting of the loop: every debtor pays its amount up to
the allowed dropped cents, every creditor receives likewise. -/
def GBounds (ds cs : List Party) : Prop :=
  (∀ d0, ds.head? = some d0 →
    d0.amount - headAllow cs ≤ emittedFrom d0.id (greedy ds cs) ∧
      emittedFrom d0.id (greedy ds cs) ≤ d0.amount) ∧
  (∀ p ∈ ds.tail,
    p.amount - 2/100 ≤ emittedFrom p.id (greedy ds cs) ∧
      emittedFrom p.id (greedy ds cs) ≤ p.amount) ∧
  (∀ c0, cs.head? = some c0 →
    c0.amount - headAllow ds ≤ emittedTo c0.id (greedy ds cs) ∧
      emittedTo c0.id (greedy ds cs) ≤ c0.amount) ∧
  (∀ p ∈ cs.tail,
    p.amount - 2/100 ≤ emittedTo p.id (greedy ds cs) ∧
      emittedTo p.id (greedy ds cs) ≤ p.amount)

theorem abs_round2_sub_le (q : ℚ) : |round2 q - q| ≤ 1/200 := by
  have h1 : (⌊q * 100 + 1/2⌋ : ℚ) ≤ q * 100 + 1/2 := Int.floor_le _
  have h2 : q * 100 + 1/2 - 1 < ⌊q * 100 + 1/2⌋ := Int.sub_one_lt_floor _
  rw [abs_le]
  unfold round2 jsRound
  constructor <;> linarith

theorem round2_cent {q : ℚ} (h : IsCent q) : round2 q = q := by
  obtain ⟨k, rfl⟩ := h
  unfold round2 jsRound
  have h1 : (k : ℚ) / 100 * 100 = (k : ℚ) := by field_simp
  rw [h1, Int.floor_int_add]
  norm_num

theorem round2_add_cent (q : ℚ) {r : ℚ} (h : IsCent r) :
    round2 (q + r) = round2 q + r := by
  obtain ⟨k, rfl⟩ := h
  unfold round2 jsRound
  have h1 : (q + (k : ℚ) / 100) * 100 = q * 100 + k := by ring
  rw [h1, add_right_comm, Int.floor_add_int]
  push_cast
  ring

theorem isCent_round2 (q : ℚ) : IsCent (round2 q) := ⟨jsRound (q * 100), rfl⟩

theorem IsCent.add {q r : ℚ} (hq : IsCent q) (hr : IsCent r) : IsCent (q + r) := by
  obtain ⟨j, rfl⟩ := hq
  obtain ⟨k, rfl⟩ := hr
  exact ⟨j + k, by push_cast; ring⟩

theorem IsCent.neg {q : ℚ} (hq : IsCent q) : IsCent (-q) := by
  obtain ⟨j, rfl⟩ := hq
  exact ⟨-j, by push_cast; ring⟩

theorem IsCent.sub {q r : ℚ} (hq : IsCent q) (hr : IsCent r) : IsCent (q - r) := by
  obtain ⟨j, rfl⟩ := hq
  obtain ⟨k, rfl⟩ := hr
  exact ⟨j - k, by push_cast; ring⟩

theorem IsCent.min {q r : ℚ} (hq : IsCent q) (hr : IsCent r) :
    IsCent (min q r) := by
  rcases min_choice q r with h | h <;> rw [h]
  · exact hq
  · exact hr

theorem IsCent.zero : IsCent 0 := ⟨0, by norm_num⟩

/-- A whole number of cents strictly above one cent is at least two. -/
theorem IsCent.two_le {q : ℚ} (hq : IsCent q) (h : 1/100 < q) : 2/100 ≤ q := by
  obtain ⟨k, rfl⟩ := hq
  have h1 : (1 : ℚ) < (k : ℚ) := by linarith
  have h2 : (1 : ℤ) < k := by exact_mod_cast h1
  have h3 : (2 : ℚ) ≤ (k : ℚ) := by exact_mod_cast h2
  linarith

/-- A nonnegative whole number of cents below one cent is zero. -/
theorem IsCent.eq_zero {q : ℚ} (hq : IsCent q) (h0 : 0 ≤ q)
    (h : q < 1/100) : q = 0 := by
  obtain ⟨k, rfl⟩ := hq
  have h1 : (0 : ℚ) ≤ (k : ℚ) := by linarith
  have h2 : (k : ℚ) < 1 := by linarith
  have h3 : (0 : ℤ) ≤ k := by exact_mod_cast h1
  have h4 : k < (1 : ℤ) := by exact_mod_cast h2
  have h5 : k = 0 := by omega
  subst h5
  norm_num

theorem initMap_apply (members : List Member) (id : String) :
    initMap members id = 0 := by
  suffices h : ∀ (ms : List Member) (bm : String → ℚ), (∀ x, bm x = 0) →
      (ms.foldl (fun bm m => updMap bm m.id 0) bm) id = 0 by
    exact h members (fun _ => 0) (fun _ => rfl)
  intro ms
  induction ms with
  | nil => intro bm h; exact h id
  | cons m ms ih =>
    intro bm h
    refine ih _ (fun x => ?_)
    unfold updMap
    by_cases hx : x = m.id <;> simp [hx, h]

theorem splits_foldl_apply (splits : List ExpenseSplit) (bm : String → ℚ)
    (id : String) :
    (splits.foldl (fun m s => updMap m s.memberId (m s.memberId - s.amount)) bm) id =
      bm id - (splits.map fun s => if s.memberId = id then s.amount else 0).sum := by
  induction splits generalizing bm with
  | nil => simp
  | cons s ss ih =>
    rw [List.foldl_cons, ih, List.map_cons, List.sum_cons]
    unfold updMap
    by_cases hx : id = s.memberId
    · subst hx
      simp
      try ring
    · have hx2 : ¬(s.memberId = id) := fun h => hx h.symm
      simp [hx, hx2]
      try ring

theorem applyExpense_apply (bm : String → ℚ) (e : Expense) (id : String) :
    applyExpense bm e id =
      bm id + (if e.paidById = id then e.amount else 0) - splitsFor e id := by
  unfold applyExpense splitsFor
  rw [splits_foldl_apply]
  unfold updMap
  by_cases hx : e.paidById = id
  · subst hx; simp
  · have : ¬(id = e.paidById) := fun h => hx h.symm
    simp [this, hx]

theorem applySettlement_apply (bm : String → ℚ) (s : Settlement) (id : String) :
    applySettlement bm s id =
      bm id + (if s.fromId = id then s.amount else 0) -
        (if s.toId = id then s.amount else 0) := by
  unfold applySettlement updMap
  by_cases ht : id = s.toId
  · subst ht
    by_cases hf : s.toId = s.fromId
    · simp [hf]
      try ring
    · have hf2 : ¬(s.fromId = s.toId) := fun h => hf h.symm
      simp [hf, hf2]
      try ring
  · by_cases hf : id = s.fromId
    · subst hf
      have ht2 : ¬(s.toId = s.fromId) := fun h => ht h.symm
      simp [ht, ht2]
      try ring
    · have ht2 : ¬(s.toId = id) := fun h => ht h.symm
      have hf2 : ¬(s.fromId = id) := fun h => hf h.symm
      simp [ht, hf, ht2, hf2]
      try ring

theorem expenses_foldl_apply (expenses : List Expense) (bm : String → ℚ)
    (id : String) :
    (expenses.foldl applyExpense bm) id =
      bm id + paidFor expenses id - splitSum expenses id := by
  induction expenses generalizing bm with
  | nil => simp [paidFor, splitSum]
  | cons e es ih =>
    rw [List.foldl_cons, ih, applyExpense_apply]
    unfold paidFor splitSum
    simp
    ring

theorem settlements_foldl_apply (settlements : List Settlement)
    (bm : String → ℚ) (id : String) :
    (settlements.foldl applySettlement bm) id =
      bm id + fromFor settlements id - toFor settlements id := by
  induction settlements generalizing bm with
  | nil => simp [fromFor, toFor]
  | cons s ss ih =>
    rw [List.foldl_cons, ih, applySettlement_apply]
    unfold fromFor toFor
    simp
    ring

/-- The final balance map sends every identifier (member or not) to its
net balance. -/
theorem finalBalanceMap_apply (members : List Member)
    (expenses : List Expense) (settlements : List Settlement) (id : String) :
    finalBalanceMap members expenses settlements id =
      netBalance expenses settlements id := by
  unfold finalBalanceMap netBalance
  rw [settlements_foldl_apply, expenses_foldl_apply, initMap_apply]
  ring

/-- Closed form of calculateBalances. -/
theorem calculateBalances_eq (members : List Member)
    (expenses : List Expense) (settlements : List Settlement) :
    calculateBalances members expenses settlements =
      members.map fun m =>
        { memberId := m.id, memberName := m.name,
          balance := round2 (netBalance expenses settlements m.id) } := by
  unfold calculateBalances
  refine List.map_congr_left fun m _ => ?_
  rw [finalBalanceMap_apply]

theorem sum_map_add {α : Type} (l : List α) (f g : α → ℚ) :
    (l.map fun x => f x + g x).sum = (l.map f).sum + (l.map g).sum := by
  induction l with
  | nil => simp
  | cons a l ih => simp [ih]; ring

theorem sum_map_neg {α : Type} (l : List α) (f : α → ℚ) :
    (l.map fun x => -f x).sum = -(l.map f).sum := by
  induction l with
  | nil => simp
  | cons a l ih => simp [ih]; ring

theorem list_sum_comm {α β : Type} (l1 : List α) (l2 : List β)
    (f : α → β → ℚ) :
    (l1.map fun x => (l2.map (f x)).sum).sum =
      (l2.map fun y => (l1.map fun x => f x y).sum).sum := by
  induction l1 with
  | nil => simp [List.sum_eq_zero]
  | cons a l ih =>
    rw [List.map_cons, List.sum_cons, ih, ← sum_map_add]
    refine congrArg List.sum (List.map_congr_left fun y hy => ?_)
    rw [List.map_cons, List.sum_cons]

/-- Summing `if k = m.id then v else 0` over members whose ids are
distinct and contain `k` yields exactly `v`. -/
theorem sum_if_mem (ms : List Member) (k : String) (v : ℚ)
    (hnd : (ms.map Member.id).Nodup) (hk : k ∈ ms.map Member.id) :
    (ms.map fun m => if k = m.id then v else 0).sum = v := by
  induction ms with
  | nil => simp at hk
  | cons m ms ih =>
    rw [List.map_cons, List.sum_cons]
    rw [List.map_cons, List.nodup_cons] at hnd
    by_cases hkm : k = m.id
    · subst hkm
      have hz : (ms.map fun m2 => if m.id = m2.id then v else 0).sum = 0 := by
        refine List.sum_eq_zero fun x hx => ?_
        obtain ⟨m2, hm2, rfl⟩ := List.mem_map.mp hx
        have hne : ¬(m.id = m2.id) := by
          intro h
          exact hnd.1 (h ▸ List.mem_map_of_mem Member.id hm2)
        simp [hne]
      simp [hz]
    · have hk2 : k ∈ ms.map Member.id := by
        rcases List.mem_cons.mp hk with h | h
        · exact absurd h hkm
        · exact h
      rw [ih hnd.2 hk2, if_neg hkm, zero_add]

theorem abs_sum_le {α : Type} (l : List α) (f : α → ℚ) :
    |(l.map f).sum| ≤ (l.map fun x => |f x|).sum := by
  induction l with
  | nil => simp
  | cons a l ih =>
    simp only [List.map_cons, List.sum_cons]
    calc |f a + (l.map f).sum| ≤ |f a| + |(l.map f).sum| := abs_add _ _
    _ ≤ |f a| + (l.map fun x => |f x|).sum := by linarith

theorem sum_le_length_mul {α : Type} (l : List α) (f : α → ℚ) (c : ℚ)
    (h : ∀ x ∈ l, f x ≤ c) :
    (l.map f).sum ≤ (l.length : ℚ) * c := by
  induction l with
  | nil => simp
  | cons a l ih =>
    simp only [List.map_cons, List.sum_cons, List.length_cons]
    have h1 : f a ≤ c := h a (List.mem_cons_self a l)
    have h2 : (l.map f).sum ≤ (l.length : ℚ) * c :=
      ih fun x hx => h x (List.mem_cons_of_mem a hx)
    push_cast
    nlinarith

theorem sum_map_netBalance_split (ms : List Member) (es : List Expense)
    (ss : List Settlement) :
    (ms.map fun m => netBalance es ss m.id).sum =
      (ms.map fun m => paidFor es m.id).sum -
        (ms.map fun m => splitSum es m.id).sum +
        (ms.map fun m => fromFor ss m.id).sum -
        (ms.map fun m => toFor ss m.id).sum := by
  unfold netBalance
  induction ms with
  | nil => simp
  | cons m ms ih =>
    simp only [List.map_cons, List.sum_cons, ih]
    ring

/-- Under well-formed references and exact splits, the pre-rounding
balances over distinct members sum to zero. -/
theorem sum_netBalance_eq_zero (ms : List Member) (es : List Expense)
    (ss : List Settlement)
    (hnd : (ms.map Member.id).Nodup)
    (hpaid : ∀ e ∈ es, e.paidById ∈ ms.map Member.id)
    (hsplitm : ∀ e ∈ es, ∀ s ∈ e.splits, s.memberId ∈ ms.map Member.id)
    (hfrom : ∀ s ∈ ss, s.fromId ∈ ms.map Member.id)
    (hto : ∀ s ∈ ss, s.toId ∈ ms.map Member.id)
    (hsum : ∀ e ∈ es, (e.splits.map ExpenseSplit.amount).sum = e.amount) :
    (ms.map fun m => netBalance es ss m.id).sum = 0 := by
  have hdec := sum_map_netBalance_split ms es ss
  have hA : (ms.map fun m => paidFor es m.id).sum =
      (es.map Expense.amount).sum := by
    unfold paidFor
    rw [list_sum_comm]
    have h : es.map
          (fun e => (ms.map fun m => if e.paidById = m.id then e.amount else 0).sum) =
        es.map Expense.amount :=
      List.map_congr_left fun e he =>
        sum_if_mem ms e.paidById e.amount hnd (hpaid e he)
    rw [h]
  have hB : (ms.map fun m => splitSum es m.id).sum =
      (es.map Expense.amount).sum := by
    unfold splitSum
    rw [list_sum_comm]
    have h : es.map (fun e => (ms.map fun m => splitsFor e m.id).sum) =
        es.map Expense.amount := by
      refine List.map_congr_left fun e he => ?_
      unfold splitsFor
      rw [list_sum_comm]
      have h2 : e.splits.map
            (fun s => (ms.map fun m => if s.memberId = m.id then s.amount else 0).sum) =
          e.splits.map ExpenseSplit.amount :=
        List.map_congr_left fun s hs =>
          sum_if_mem ms s.memberId s.amount hnd (hsplitm e he s hs)
      rw [h2, hsum e he]
    rw [h]
  have hC : (ms.map fun m => fromFor ss m.id).sum =
      (ss.map Settlement.amount).sum := by
    unfold fromFor
    rw [list_sum_comm]
    have h : ss.map
          (fun s => (ms.map fun m => if s.fromId = m.id then s.amount else 0).sum) =
        ss.map Settlement.amount :=
      List.map_congr_left fun s hs =>
        sum_if_mem ms s.fromId s.amount hnd (hfrom s hs)
    rw [h]
  have hD : (ms.map fun m => toFor ss m.id).sum =
      (ss.map Settlement.amount).sum := by
    unfold toFor
    rw [list_sum_comm]
    have h : ss.map
          (fun s => (ms.map fun m => if s.toId = m.id then s.amount else 0).sum) =
        ss.map Settlement.amount :=
      List.map_congr_left fun s hs =>
        sum_if_mem ms s.toId s.amount hnd (hto s hs)
    rw [h]
  rw [hdec, hA, hB, hC, hD]
  ring

theorem insertDesc_perm (p : Party) (l : List Party) :
    (insertDesc p l).Perm (p :: l) := by
  induction l with
  | nil => exact List.Perm.refl _
  | cons q qs ih =>
    unfold insertDesc
    by_cases h : q.amount ≤ p.amount
    · simp only [if_pos h]
      exact List.Perm.refl _
    · simp only [if_neg h]
      exact (ih.cons q).trans (List.Perm.swap p q qs)

theorem sortDesc_perm (l : List Party) : (sortDesc l).Perm l := by
  induction l with
  | nil => exact List.Perm.refl _
  | cons p ps ih =>
    unfold sortDesc
    exact (insertDesc_perm p (sortDesc ps)).trans (ih.cons p)

theorem mem_sortDesc {p : Party} {l : List Party} :
    p ∈ sortDesc l ↔ p ∈ l := (sortDesc_perm l).mem_iff

theorem psum_sortDesc (l : List Party) : psum (sortDesc l) = psum l :=
  ((sortDesc_perm l).map Party.amount).sum_eq

theorem sortDesc_ids_perm (l : List Party) :
    ((sortDesc l).map Party.id).Perm (l.map Party.id) :=
  (sortDesc_perm l).map Party.id

theorem length_sortDesc (l : List Party) :
    (sortDesc l).length = l.length := (sortDesc_perm l).length_eq

theorem mem_creditorsOf {bs : List BalanceEntry} {p : Party} :
    p ∈ creditorsOf bs ↔
      ∃ b ∈ bs, 1/100 < b.balance ∧
        p = ⟨b.memberId, b.memberName, b.balance⟩ := by
  unfold creditorsOf
  rw [List.mem_filterMap]
  constructor
  · rintro ⟨b, hb, hfb⟩
    by_cases h : 1/100 < b.balance
    · rw [if_pos h] at hfb
      exact ⟨b, hb, h, (Option.some_inj.mp hfb).symm⟩
    · rw [if_neg h] at hfb
      exact absurd hfb (Option.noConfusion)
  · rintro ⟨b, hb, h, rfl⟩
    exact ⟨b, hb, by rw [if_pos h]⟩

theorem mem_debtorsOf {bs : List BalanceEntry} {p : Party} :
    p ∈ debtorsOf bs ↔
      ∃ b ∈ bs, b.balance < -(1/100) ∧
        p = ⟨b.memberId, b.memberName, -b.balance⟩ := by
  unfold debtorsOf
  rw [List.mem_filterMap]
  constructor
  · rintro ⟨b, hb, hfb⟩
    by_cases h : b.balance < -(1/100)
    · rw [if_pos h] at hfb
      exact ⟨b, hb, h, (Option.some_inj.mp hfb).symm⟩
    · rw [if_neg h] at hfb
      exact absurd hfb (Option.noConfusion)
  · rintro ⟨b, hb, h, rfl⟩
    exact ⟨b, hb, by rw [if_pos h]⟩

theorem creditorsOf_ids_sublist (bs : List BalanceEntry) :
    ((creditorsOf bs).map Party.id).Sublist (bs.map BalanceEntry.memberId) := by
  induction bs with
  | nil => simp [creditorsOf]
  | cons b bs ih =>
    unfold creditorsOf at ih ⊢
    rw [List.filterMap_cons]
    by_cases h : 1/100 < b.balance
    · rw [if_pos h]
      exact ih.cons₂ b.memberId
    · rw [if_neg h]
      exact ih.cons b.memberId

theorem debtorsOf_ids_sublist (bs : List BalanceEntry) :
    ((debtorsOf bs).map Party.id).Sublist (bs.map BalanceEntry.memberId) := by
  induction bs with
  | nil => simp [debtorsOf]
  | cons b bs ih =>
    unfold debtorsOf at ih ⊢
    rw [List.filterMap_cons]
    by_cases h : b.balance < -(1/100)
    · rw [if_pos h]
      exact ih.cons₂ b.memberId
    · rw [if_neg h]
      exact ih.cons b.memberId

theorem creditors_debtors_length (bs : List BalanceEntry) :
    (debtorsOf bs).length + (creditorsOf bs).length = nonSettledCount bs := by
  induction bs with
  | nil => simp [creditorsOf, debtorsOf, nonSettledCount]
  | cons b bs ih =>
    unfold creditorsOf debtorsOf nonSettledCount at ih ⊢
    rw [List.filterMap_cons, List.filterMap_cons, List.countP_cons]
    by_cases h1 : 1/100 < b.balance
    · have habs : 1/100 < |b.balance| := lt_of_lt_of_le h1 (le_abs_self _)
      have h2 : ¬(b.balance < -(1/100)) := by
        intro h
        linarith
      simp only [if_pos h1, if_neg h2, List.length_cons, decide_eq_true_eq,
        if_pos habs]
      omega
    · by_cases h2 : b.balance < -(1/100)
      · have habs : 1/100 < |b.balance| := by
          rw [lt_abs]
          right
          linarith
        simp only [if_pos h2, if_neg h1, List.length_cons, decide_eq_true_eq,
          if_pos habs]
        omega
      · have habs : ¬(1/100 < |b.balance|) := by
          rw [lt_abs]
          push_neg
          constructor <;> linarith
        simp only [if_neg h1, if_neg h2, decide_eq_true_eq, if_neg habs]
        omega

/-- In every iteration the side achieving the minimum drops below the
cursor-advance threshold: the loop always advances. -/
theorem min_branch (d c : Party) :
    d.amount - min d.amount c.amount < 1/100 ∨
      c.amount - min d.amount c.amount < 1/100 := by
  rcases min_choice d.amount c.amount with h | h
  · left
    rw [h]
    norm_num
  · right
    rw [h]
    norm_num

theorem greedy_length : ∀ ds cs : List Party,
    (greedy ds cs).length ≤ ds.length + cs.length - 1 := by
  intro ds cs
  induction ds, cs using greedy.induct with
  | case1 cs => simp [greedy]
  | case2 d ds => simp [greedy]
  | case3 d ds c cs ih1 ih2 ih3 ih4 =>
    rw [greedy]
    have hemit : (if 1/100 < min d.amount c.amount then
        [{ fromId := d.id, fromName := d.name, toId := c.id, toName := c.name,
           amount := round2 (min d.amount c.amount) }]
        else ([] : List TransactionSuggestion)).length ≤ 1 := by
      by_cases hm : 1/100 < min d.amount c.amount
      · rw [if_pos hm]
        simp
      · rw [if_neg hm]
        simp
    by_cases h1 : d.amount - min d.amount c.amount < 1/100
    · by_cases h2 : c.amount - min d.amount c.amount < 1/100
      · rw [dif_pos h1, dif_pos h2, List.length_append]
        have := ih1
        simp only [List.length_cons]
        omega
      · rw [dif_pos h1, dif_neg h2, List.length_append]
        have := ih2
        simp only [List.length_cons] at this ⊢
        omega
    · by_cases h2 : c.amount - min d.amount c.amount < 1/100
      · rw [dif_neg h1, dif_pos h2, List.length_append]
        have := ih3
        simp only [List.length_cons] at this ⊢
        omega
      · rcases min_branch d c with h | h
        · exact absurd h h1
        · exact absurd h h2

theorem greedy_sourceIds : ∀ ds cs : List Party,
    ∀ t ∈ greedy ds cs,
      t.fromId ∈ ds.map Party.id ∧ t.toId ∈ cs.map Party.id := by
  intro ds cs
  induction ds, cs using greedy.induct with
  | case1 cs => simp [greedy]
  | case2 d ds => simp [greedy]
  | case3 d ds c cs ih1 ih2 ih3 ih4 =>
    intro t ht
    rw [greedy] at ht
    rcases List.mem_append.mp ht with hemit | hrest
    · by_cases hm : 1/100 < min d.amount c.amount
      · rw [if_pos hm] at hemit
        rcases List.mem_singleton.mp hemit with rfl
        constructor <;> simp
      · rw [if_neg hm] at hemit
        exact absurd hemit (List.not_mem_nil t)
    · by_cases h1 : d.amount - min d.amount c.amount < 1/100
      · by_cases h2 : c.amount - min d.amount c.amount < 1/100
        · rw [dif_pos h1, dif_pos h2] at hrest
          obtain ⟨hf, ht2⟩ := ih1 t hrest
          constructor <;> simp [hf, ht2]
        · rw [dif_pos h1, dif_neg h2] at hrest
          obtain ⟨hf, ht2⟩ := ih2 t hrest
          simp only [List.map_cons] at ht2 ⊢
          constructor
          · simp [hf]
          · exact ht2
      · by_cases h2 : c.amount - min d.amount c.amount < 1/100
        · rw [dif_neg h1, dif_pos h2] at hrest
          obtain ⟨hf, ht2⟩ := ih3 t hrest
          simp only [List.map_cons] at hf ⊢
          constructor
          · exact hf
          · simp [ht2]
        · rcases min_branch d c with h | h
          · exact absurd h h1
          · exact absurd h h2

theorem greedy_amounts : ∀ ds cs : List Party,
    ∀ t ∈ greedy ds cs, ∃ a : ℚ, 1/100 < a ∧ t.amount = round2 a := by
  intro ds cs
  induction ds, cs using greedy.induct with
  | case1 cs => simp [greedy]
  | case2 d ds => simp [greedy]
  | case3 d ds c cs ih1 ih2 ih3 ih4 =>
    intro t ht
    rw [greedy] at ht
    rcases List.mem_append.mp ht with hemit | hrest
    · by_cases hm : 1/100 < min d.amount c.amount
      · rw [if_pos hm] at hemit
        rcases List.mem_singleton.mp hemit with rfl
        exact ⟨min d.amount c.amount, hm, rfl⟩
      · rw [if_neg hm] at hemit
        exact absurd hemit (List.not_mem_nil t)
    · by_cases h1 : d.amount - min d.amount c.amount < 1/100
      · by_cases h2 : c.amount - min d.amount c.amount < 1/100
        · rw [dif_pos h1, dif_pos h2] at hrest
          exact ih1 t hrest
        · rw [dif_pos h1, dif_neg h2] at hrest
          exact ih2 t hrest
      · by_cases h2 : c.amount - min d.amount c.amount < 1/100
        · rw [dif_neg h1, dif_pos h2] at hrest
          exact ih3 t hrest
        · rcases min_branch d c with h | h
          · exact absurd h h1
          · exact absurd h h2

theorem greedy_eq_greedyFuel : ∀ ds cs : List Party, ∀ fuel : ℕ,
    ds.length + cs.length ≤ fuel → greedy ds cs = greedyFuel fuel ds cs := by
  intro ds cs
  induction ds, cs using greedy.induct with
  | case1 cs =>
    intro fuel hf
    cases fuel with
    | zero => simp [greedy, greedyFuel]
    | succ n => simp [greedy, greedyFuel]
  | case2 d ds =>
    intro fuel hf
    cases fuel with
    | zero => simp at hf
    | succ n => simp [greedy, greedyFuel]
  | case3 d ds c cs ih1 ih2 ih3 ih4 =>
    intro fuel hf
    cases fuel with
    | zero => simp at hf
    | succ n =>
      rw [greedy]
      show _ = greedyFuel (n + 1) (d :: ds) (c :: cs)
      rw [greedyFuel]
      simp only [List.length_cons] at hf
      by_cases h1 : d.amount - min d.amount c.amount < 1/100
      · by_cases h2 : c.amount - min d.amount c.amount < 1/100
        · rw [dif_pos h1, dif_pos h2, if_pos h1, if_pos h2,
            ih1 n (by omega)]
        · rw [dif_pos h1, dif_neg h2, if_pos h1, if_neg h2,
            ih2 n (by simp only [List.length_cons]; omega)]
      · by_cases h2 : c.amount - min d.amount c.amount < 1/100
        · rw [dif_neg h1, dif_pos h2, if_neg h1, if_pos h2,
            ih3 n (by simp only [List.length_cons]; omega)]
        · rcases min_branch d c with h | h
          · exact absurd h h1
          · exact absurd h h2

/-- The two functions agree: the loop needs at most
`debtors.length + creditors.length` iterations. -/
theorem calcMin_eq_fuel (members : List Member) (expenses : List Expense)
    (settlements : List Settlement) :
    calculateMinimumTransactions members expenses settlements =
      calculateMinimumTransactionsFuel members expenses settlements := by
  unfold calculateMinimumTransactions calculateMinimumTransactionsFuel
  exact greedy_eq_greedyFuel _ _ _
    (by rw [length_sortDesc, length_sortDesc])

/-- Every output entry's balance is the rounded net balance of its id. -/
theorem balance_determined {ms : List Member} {es : List Expense}
    {ss : List Settlement} :
    ∀ b ∈ calculateBalances ms es ss,
      b.balance = round2 (netBalance es ss b.memberId) := by
  rw [calculateBalances_eq]
  rintro b hb
  obtain ⟨m, hm, rfl⟩ := List.mem_map.mp hb
  rfl

theorem round2_ge {a : ℚ} (h : 1/100 < a) : 1/100 ≤ round2 a := by
  unfold round2 jsRound
  have h1 : (1 : ℤ) ≤ ⌊a * 100 + 1/2⌋ := Int.le_floor.mpr (by push_cast; linarith)
  have h2 : (1 : ℚ) ≤ (⌊a * 100 + 1/2⌋ : ℚ) := by exact_mod_cast h1
  linarith

/-- C3 (confirmed): for every member of the input list, in input order,
`calculateBalances` returns the member's id and name together with
(expense totals paid) − (splits owed) + (settlements paid) −
(settlements received), rounded to 2 decimals by multiplying by 100,
rounding half-up to the nearest integer, and dividing by 100. -/
theorem c3_balance_formula (members : List Member) (expenses : List Expense)
    (settlements : List Settlement) :
    calculateBalances members expenses settlements =
      members.map fun m =>
        { memberId := m.id, memberName := m.name,
          balance := round2 (netBalance expenses settlements m.id) } :=
  calculateBalances_eq members expenses settlements

/-- C4 (confirmed): `calculateBalances` returns exactly one entry per
input member, in input order, carrying that member's id and name; a
member referenced by no expense (as payer or split member) and no
settlement has balance 0. -/
theorem c4_output_shape (members : List Member) (expenses : List Expense)
    (settlements : List Settlement) :
    ((calculateBalances members expenses settlements).length = members.length) ∧
    (∀ i (h1 : i < (calculateBalances members expenses settlements).length)
        (h2 : i < members.length),
      ((calculateBalances members expenses settlements).get ⟨i, h1⟩).memberId =
          (members.get ⟨i, h2⟩).id ∧
        ((calculateBalances members expenses settlements).get ⟨i, h1⟩).memberName =
          (members.get ⟨i, h2⟩).name) ∧
    (∀ i (h1 : i < (calculateBalances members expenses settlements).length)
        (h2 : i < members.length),
      (∀ e ∈ expenses, e.paidById ≠ (members.get ⟨i, h2⟩).id ∧
        ∀ s ∈ e.splits, s.memberId ≠ (members.get ⟨i, h2⟩).id) →
      (∀ s ∈ settlements, s.fromId ≠ (members.get ⟨i, h2⟩).id ∧
        s.toId ≠ (members.get ⟨i, h2⟩).id) →
      ((calculateBalances members expenses settlements).get ⟨i, h1⟩).balance = 0) := by
  refine ⟨?_, ?_, ?_⟩
  · rw [calculateBalances_eq, List.length_map]
  · intro i h1 h2
    have hg := List.get_of_eq (calculateBalances_eq members expenses settlements)
      ⟨i, h1⟩
    rw [List.get_map] at hg
    rw [hg]
    exact ⟨rfl, rfl⟩
  · intro i h1 h2 hexp hset
    have hg := List.get_of_eq (calculateBalances_eq members expenses settlements)
      ⟨i, h1⟩
    rw [List.get_map] at hg
    rw [hg]
    have hz : netBalance expenses settlements (members.get ⟨i, h2⟩).id = 0 := by
      unfold netBalance paidFor splitSum fromFor toFor
      have hA : (expenses.map fun e =>
          if e.paidById = (members.get ⟨i, h2⟩).id then e.amount else 0).sum = 0 :=
        List.sum_eq_zero fun x hx => by
          obtain ⟨e, he, rfl⟩ := List.mem_map.mp hx
          rw [if_neg (hexp e he).1]
      have hB : (expenses.map fun e =>
          splitsFor e (members.get ⟨i, h2⟩).id).sum = 0 :=
        List.sum_eq_zero fun x hx => by
          obtain ⟨e, he, rfl⟩ := List.mem_map.mp hx
          unfold splitsFor
          exact List.sum_eq_zero fun y hy => by
            obtain ⟨s, hs, rfl⟩ := List.mem_map.mp hy
            rw [if_neg ((hexp e he).2 s hs)]
      have hC : (settlements.map fun s =>
          if s.fromId = (members.get ⟨i, h2⟩).id then s.amount else 0).sum = 0 :=
        List.sum_eq_zero fun x hx => by
          obtain ⟨s, hs, rfl⟩ := List.mem_map.mp hx
          rw [if_neg (hset s hs).1]
      have hD : (settlements.map fun s =>
          if s.toId = (members.get ⟨i, h2⟩).id then s.amount else 0).sum = 0 :=
        List.sum_eq_zero fun x hx => by
          obtain ⟨s, hs, rfl⟩ := List.mem_map.mp hx
          rw [if_neg (hset s hs).2]
      rw [hA, hB, hC, hD]
      ring
    rw [hz, round2_cent IsCent.zero]

/-- Witness for C4 at a concrete input. -/
theorem c4_witness :
    ((calculateBalances [⟨"a", "A"⟩] [] []).get ⟨0, by decide⟩).balance = 0 :=
  (c4_output_shape [⟨"a", "A"⟩] [] []).2.2 0 (by decide) (by decide)
    (fun e he => absurd he (List.not_mem_nil e))
    (fun s hs => absurd hs (List.not_mem_nil s))

/-- C7 (confirmed): an identifier referenced by an expense or settlement
but absent from the member list raises no error: the internal map still
tallies its net balance, while the output — one entry per input member —
never mentions it. -/
theorem c7_unknown_pass_through (members : List Member)
    (expenses : List Expense) (settlements : List Settlement) (id : String)
    (h : id ∉ members.map Member.id) :
    finalBalanceMap members expenses settlements id =
        netBalance expenses settlements id ∧
      (calculateBalances members expenses settlements).length = members.length ∧
      ∀ b ∈ calculateBalances members expenses settlements, b.memberId ≠ id := by
  refine ⟨finalBalanceMap_apply members expenses settlements id, ?_, ?_⟩
  · rw [calculateBalances_eq, List.length_map]
  · intro b hb
    rw [calculateBalances_eq] at hb
    obtain ⟨m, hm, rfl⟩ := List.mem_map.mp hb
    intro heq
    exact h (heq ▸ List.mem_map_of_mem Member.id hm)

/-- Witness for C7: a ghost payer "g" is tallied but not output. -/
theorem c7_witness :
    finalBalanceMap [⟨"a", "A"⟩] [⟨"g", 5, [⟨"a", 5⟩]⟩] [] "g" =
        netBalance [⟨"g", 5, [⟨"a", 5⟩]⟩] [] "g" ∧
      (calculateBalances [⟨"a", "A"⟩] [⟨"g", 5, [⟨"a", 5⟩]⟩] []).length = 1 ∧
      ∀ b ∈ calculateBalances [⟨"a", "A"⟩] [⟨"g", 5, [⟨"a", 5⟩]⟩] [],
        b.memberId ≠ "g" :=
  c7_unknown_pass_through [⟨"a", "A"⟩] [⟨"g", 5, [⟨"a", 5⟩]⟩] [] "g" (by decide)

/-- C8 (confirmed): both operations are total functions of their input;
in particular the greedy two-cursor loop terminates within
`debtors.length + creditors.length` iterations because every iteration
advances at least one cursor (`min_branch`). -/
theorem c8_termination (members : List Member) (expenses : List Expense)
    (settlements : List Settlement) :
    calculateMinimumTransactions members expenses settlements =
      calculateMinimumTransactionsFuel members expenses settlements :=
  calcMin_eq_fuel members expenses settlements

/-- C6 (confirmed, reading the count bound over ℕ): the number of
suggestions is at most the number of non-settled members minus one
(truncated at zero, which strengthens the bound when no member is
non-settled). -/
theorem c6_transaction_bound (members : List Member) (expenses : List Expense)
    (settlements : List Settlement) :
    (calculateMinimumTransactions members expenses settlements).length ≤
      nonSettledCount (calculateBalances members expenses settlements) - 1 := by
  unfold calculateMinimumTransactions
  have h := greedy_length
    (sortDesc (debtorsOf (calculateBalances members expenses settlements)))
    (sortDesc (creditorsOf (calculateBalances members expenses settlements)))
  rw [length_sortDesc, length_sortDesc,
    creditors_debtors_length (calculateBalances members expenses settlements)] at h
  exact h

/-- C9 (confirmed): every suggestion is emitted only for a matched
amount strictly above 0.01, its amount is that matched amount rounded
to 2 decimals, and it is positive. -/
theorem c9_amount_validity (members : List Member) (expenses : List Expense)
    (settlements : List Settlement) :
    ∀ t ∈ calculateMinimumTransactions members expenses settlements,
      (∃ a : ℚ, 1/100 < a ∧ t.amount = round2 a) ∧ 0 < t.amount := by
  intro t ht
  obtain ⟨a, ha, hta⟩ := greedy_amounts _ _ t ht
  refine ⟨⟨a, ha, hta⟩, ?_⟩
  rw [hta]
  calc (0 : ℚ) < 1/100 := by norm_num
  _ ≤ round2 a := round2_ge ha

/-- Witness for C9 at a concrete input. -/
theorem c9_witness :
    0 < ((⟨"b", "B", "a", "A", 10⟩ : TransactionSuggestion)).amount :=
  (c9_amount_validity [⟨"a", "A"⟩, ⟨"b", "B"⟩] [⟨"a", 10, [⟨"b", 10⟩]⟩] []
    ((⟨"b", "B", "a", "A", 10⟩ : TransactionSuggestion))
    (by rw [calcMin_eq_fuel]; decide)).2

/-- C10 (confirmed): a suggestion's payer id and payee id always differ:
an identifier has a single balance, so it enters at most one of the
debtor and creditor lists. -/
theorem c10_no_self_payment (members : List Member) (expenses : List Expense)
    (settlements : List Settlement) :
    ∀ t ∈ calculateMinimumTransactions members expenses settlements,
      t.fromId ≠ t.toId := by
  intro t ht heq
  obtain ⟨hfrom, hto⟩ := greedy_sourceIds _ _ t ht
  rw [(sortDesc_ids_perm _).mem_iff] at hfrom hto
  obtain ⟨pd, hpd, hpdid⟩ := List.mem_map.mp hfrom
  obtain ⟨pc, hpc, hpcid⟩ := List.mem_map.mp hto
  obtain ⟨bd, hbd, hbdlt, rfl⟩ := mem_debtorsOf.mp hpd
  obtain ⟨bc, hbc, hbcgt, rfl⟩ := mem_creditorsOf.mp hpc
  have hd := balance_determined bd hbd
  have hc := balance_determined bc hbc
  have hid : bd.memberId = bc.memberId := hpdid.trans (heq.trans hpcid.symm)
  have hbb : bd.balance = bc.balance := by
    rw [hd, hc, hid]
  linarith [hbdlt, hbcgt]

/-- Witness for C10 at a concrete input. -/
theorem c10_witness :
    ((⟨"b", "B", "a", "A", 10⟩ : TransactionSuggestion)).fromId ≠
      ((⟨"b", "B", "a", "A", 10⟩ : TransactionSuggestion)).toId :=
  c10_no_self_payment [⟨"a", "A"⟩, ⟨"b", "B"⟩] [⟨"a", 10, [⟨"b", 10⟩]⟩] []
    ((⟨"b", "B", "a", "A", 10⟩ : TransactionSuggestion))
    (by rw [calcMin_eq_fuel]; decide)

/-- C5 (confirmed): a member whose balance lies within ±0.01 of zero is
never suggested as payer or payee; if every balance is within ±0.01,
no suggestion is returned at all. -/
theorem c5_settled_excluded (members : List Member) (expenses : List Expense)
    (settlements : List Settlement) :
    (∀ b ∈ calculateBalances members expenses settlements,
      |b.balance| ≤ 1/100 →
        ∀ t ∈ calculateMinimumTransactions members expenses settlements,
          t.fromId ≠ b.memberId ∧ t.toId ≠ b.memberId) ∧
    ((∀ b ∈ calculateBalances members expenses settlements,
        |b.balance| ≤ 1/100) →
      calculateMinimumTransactions members expenses settlements = []) := by
  constructor
  · intro b hb hsmall t ht
    obtain ⟨hfrom, hto⟩ := greedy_sourceIds _ _ t ht
    rw [(sortDesc_ids_perm _).mem_iff] at hfrom hto
    constructor
    · intro heq
      obtain ⟨pd, hpd, hpdid⟩ := List.mem_map.mp hfrom
      obtain ⟨bd, hbd, hbdlt, rfl⟩ := mem_debtorsOf.mp hpd
      have hd := balance_determined bd hbd
      have hb2 := balance_determined b hb
      have hid : bd.memberId = b.memberId := hpdid.trans heq
      have hbb : bd.balance = b.balance := by rw [hd, hb2, hid]
      have habs : -(1/100) ≤ b.balance := (abs_le.mp hsmall).1
      linarith [hbdlt]
    · intro heq
      obtain ⟨pc, hpc, hpcid⟩ := List.mem_map.mp hto
      obtain ⟨bc, hbc, hbcgt, rfl⟩ := mem_creditorsOf.mp hpc
      have hc := balance_determined bc hbc
      have hb2 := balance_determined b hb
      have hid : bc.memberId = b.memberId := hpcid.trans heq
      have hbb : bc.balance = b.balance := by rw [hc, hb2, hid]
      have habs : b.balance ≤ 1/100 := (abs_le.mp hsmall).2
      linarith [hbcgt]
  · intro hall
    have hc : creditorsOf (calculateBalances members expenses settlements) = [] := by
      refine List.filterMap_eq_nil.mpr fun b hb => ?_
      rw [if_neg]
      intro hgt
      exact absurd ((hall b hb)) (by push_neg; exact lt_of_lt_of_le hgt (le_abs_self _))
    have hd : debtorsOf (calculateBalances members expenses settlements) = [] := by
      refine List.filterMap_eq_nil.mpr fun b hb => ?_
      rw [if_neg]
      intro hlt
      have habs : -(1/100) ≤ b.balance := (abs_le.mp (hall b hb)).1
      linarith
    unfold calculateMinimumTransactions
    rw [hc, hd]
    show greedy (sortDesc []) (sortDesc []) = []
    simp [sortDesc, greedy]

/-- Witness for C5: Example 2 of the spec — fully settled group. -/
theorem c5_witness :
    calculateMinimumTransactions [⟨"a", "A"⟩, ⟨"b", "B"⟩]
      [⟨"a", 100, [⟨"a", 50⟩, ⟨"b", 50⟩]⟩] [⟨"b", "a", 50⟩] = [] :=
  (c5_settled_excluded [⟨"a", "A"⟩, ⟨"b", "B"⟩]
    [⟨"a", 100, [⟨"a", 50⟩, ⟨"b", 50⟩]⟩] [⟨"b", "a", 50⟩]).2 (by decide)

/-- Counterexample to C1 as stated: an expense whose payer has no splits
(or references outside the member list) breaks the zero-sum property
for arbitrary inputs. -/
theorem c1_counterexample :
    ¬ (|((calculateBalances [⟨"a", "A"⟩] [⟨"a", 100, []⟩] []).map
          BalanceEntry.balance).sum| ≤
        (([⟨"a", "A"⟩] : List Member).length : ℚ) * (1/100)) := by
  decide

/-- C1 (amended): when member ids are distinct, every referenced id is a
member, and each expense's splits sum to its total, the returned
balances sum to zero up to the rounding epsilon 0.01 × member count. -/
theorem c1_zero_sum (members : List Member) (expenses : List Expense)
    (settlements : List Settlement)
    (hnd : (members.map Member.id).Nodup)
    (hpaid : ∀ e ∈ expenses, e.paidById ∈ members.map Member.id)
    (hsplitm : ∀ e ∈ expenses, ∀ s ∈ e.splits,
      s.memberId ∈ members.map Member.id)
    (hfrom : ∀ s ∈ settlements, s.fromId ∈ members.map Member.id)
    (hto : ∀ s ∈ settlements, s.toId ∈ members.map Member.id)
    (hsum : ∀ e ∈ expenses, (e.splits.map ExpenseSplit.amount).sum = e.amount) :
    |((calculateBalances members expenses settlements).map
        BalanceEntry.balance).sum| ≤ (members.length : ℚ) * (1/100) := by
  rw [calculateBalances_eq, List.map_map]
  have hz := sum_netBalance_eq_zero members expenses settlements hnd hpaid
    hsplitm hfrom hto hsum
  have hsplit2 : ((members.map
      (BalanceEntry.balance ∘ fun m =>
        { memberId := m.id, memberName := m.name,
          balance := round2 (netBalance expenses settlements m.id) })).sum) =
      (members.map fun m => netBalance expenses settlements m.id).sum +
        (members.map fun m =>
          round2 (netBalance expenses settlements m.id) -
            netBalance expenses settlements m.id).sum := by
    rw [← sum_map_add]
    exact congrArg List.sum (List.map_congr_left fun m hm => by
      simp only [Function.comp]
      ring)
  rw [hsplit2, hz, zero_add]
  calc |(members.map fun m =>
        round2 (netBalance expenses settlements m.id) -
          netBalance expenses settlements m.id).sum|
      ≤ (members.map fun m =>
          |round2 (netBalance expenses settlements m.id) -
            netBalance expenses settlements m.id|).sum := abs_sum_le _ _
    _ ≤ (members.length : ℚ) * (1/200) :=
        sum_le_length_mul _ _ _ fun m hm => abs_round2_sub_le _
    _ ≤ (members.length : ℚ) * (1/100) := by
        have hn : (0 : ℚ) ≤ (members.length : ℚ) := Nat.cast_nonneg _
        nlinarith

/-- Witness for the amended C1 at a concrete input. -/
theorem c1_witness :
    |((calculateBalances [⟨"a", "A"⟩, ⟨"b", "B"⟩]
        [⟨"a", 10, [⟨"b", 10⟩]⟩] []).map BalanceEntry.balance).sum| ≤
      (([⟨"a", "A"⟩, ⟨"b", "B"⟩] : List Member).length : ℚ) * (1/100) :=
  c1_zero_sum [⟨"a", "A"⟩, ⟨"b", "B"⟩] [⟨"a", 10, [⟨"b", 10⟩]⟩] []
    (by decide) (by decide) (by decide) (by decide) (by decide) (by decide)

theorem emittedFrom_append (id : String)
    (l1 l2 : List TransactionSuggestion) :
    emittedFrom id (l1 ++ l2) = emittedFrom id l1 + emittedFrom id l2 := by
  unfold emittedFrom
  rw [List.map_append, List.sum_append]

theorem emittedTo_append (id : String) (l1 l2 : List TransactionSuggestion) :
    emittedTo id (l1 ++ l2) = emittedTo id l1 + emittedTo id l2 := by
  unfold emittedTo
  rw [List.map_append, List.sum_append]

theorem emittedFrom_zero_of (id : String) (txs : List TransactionSuggestion)
    (h : ∀ t ∈ txs, t.fromId ≠ id) : emittedFrom id txs = 0 := by
  unfold emittedFrom
  refine List.sum_eq_zero fun x hx => ?_
  obtain ⟨t, ht, rfl⟩ := List.mem_map.mp hx
  rw [if_neg (h t ht)]

theorem emittedTo_zero_of (id : String) (txs : List TransactionSuggestion)
    (h : ∀ t ∈ txs, t.toId ≠ id) : emittedTo id txs = 0 := by
  unfold emittedTo
  refine List.sum_eq_zero fun x hx => ?_
  obtain ⟨t, ht, rfl⟩ := List.mem_map.mp hx
  rw [if_neg (h t ht)]

theorem emittedFrom_greedy_zero {id : String} {ds cs : List Party}
    (h : id ∉ ds.map Party.id) : emittedFrom id (greedy ds cs) = 0 :=
  emittedFrom_zero_of id _ fun t ht heq =>
    h (heq ▸ (greedy_sourceIds ds cs t ht).1)

theorem emittedTo_greedy_zero {id : String} {ds cs : List Party}
    (h : id ∉ cs.map Party.id) : emittedTo id (greedy ds cs) = 0 :=
  emittedTo_zero_of id _ fun t ht heq =>
    h (heq ▸ (greedy_sourceIds ds cs t ht).2)

theorem headAllow_ge (l : List Party) : 1/100 ≤ headAllow l := by
  cases l with
  | nil => norm_num [headAllow]
  | cons p l =>
    simp only [headAllow]
    by_cases h : p.amount < 2/100
    · rw [if_pos h]
      norm_num
    · rw [if_neg h]

theorem headAllow_le (l : List Party) : headAllow l ≤ 2/100 := by
  cases l with
  | nil => norm_num [headAllow]
  | cons p l =>
    simp only [headAllow]
    by_cases h : p.amount < 2/100
    · rw [if_pos h]
    · rw [if_neg h]
      norm_num

theorem headAllow_of_fresh {l : List Party} (h : ∀ p ∈ l, 2/100 ≤ p.amount) :
    headAllow l = 1/100 := by
  cases l with
  | nil => rfl
  | cons p l =>
    simp only [headAllow]
    rw [if_neg (not_lt.mpr (h p (List.mem_cons_self p l)))]

theorem headAllow_cons_lt {p : Party} (l : List Party)
    (h : p.amount < 2/100) : headAllow (p :: l) = 2/100 := by
  simp only [headAllow]
  rw [if_pos h]

theorem psum_nil : psum [] = 0 := rfl

theorem psum_cons (p : Party) (l : List Party) :
    psum (p :: l) = p.amount + psum l := by
  unfold psum
  rw [List.map_cons, List.sum_cons]

theorem psum_nonneg {l : List Party} (h : amountsOK l) : 0 ≤ psum l := by
  induction l with
  | nil => norm_num [psum_nil]
  | cons p l ih =>
    rw [psum_cons]
    have h1 := (h p (List.mem_cons_self p l)).2
    have h2 := ih fun q hq => h q (List.mem_cons_of_mem p hq)
    linarith

theorem psum_pos {p : Party} {l : List Party} (h : amountsOK (p :: l)) :
    0 < psum (p :: l) := by
  rw [psum_cons]
  have h1 := (h p (List.mem_cons_self p l)).2
  have h2 := psum_nonneg fun q hq => h q (List.mem_cons_of_mem p hq)
  linarith

theorem mem_of_headOpt {l : List Party} {p : Party} (h : l.head? = some p) :
    p ∈ l := by
  cases l with
  | nil => exact absurd h (by simp)
  | cons x xs =>
    rw [List.head?_cons, Option.some_inj] at h
    exact h ▸ List.mem_cons_self x xs

/-- The head-or-tail bounds give uniform two-cent bounds on the whole
working lists. -/
theorem gbounds_all {ds cs : List Party} (h : GBounds ds cs) :
    (∀ p ∈ ds, p.amount - 2/100 ≤ emittedFrom p.id (greedy ds cs) ∧
      emittedFrom p.id (greedy ds cs) ≤ p.amount) ∧
    (∀ p ∈ cs, p.amount - 2/100 ≤ emittedTo p.id (greedy ds cs) ∧
      emittedTo p.id (greedy ds cs) ≤ p.amount) := by
  obtain ⟨h1, h2, h3, h4⟩ := h
  constructor
  · intro p hp
    cases ds with
    | nil => exact absurd hp (List.not_mem_nil p)
    | cons d ds =>
      rcases List.mem_cons.mp hp with rfl | hp2
      · obtain ⟨hlo, hhi⟩ := h1 p (List.head?_cons)
        exact ⟨le_trans (by linarith [headAllow_le cs]) hlo, hhi⟩
      · exact h2 p hp2
  · intro p hp
    cases cs with
    | nil => exact absurd hp (List.not_mem_nil p)
    | cons c cs =>
      rcases List.mem_cons.mp hp with rfl | hp2
      · obtain ⟨hlo, hhi⟩ := h3 p (List.head?_cons)
        exact ⟨le_trans (by linarith [headAllow_le ds]) hlo, hhi⟩
      · exact h4 p hp2

theorem emittedFrom_nil (id : String) : emittedFrom id [] = 0 := rfl

theorem emittedTo_nil (id : String) : emittedTo id [] = 0 := rfl

theorem emittedFrom_emit (id fn tid tn : String) (a : ℚ) :
    emittedFrom id [⟨id, fn, tid, tn, a⟩] = a := by
  unfold emittedFrom
  simp

theorem emittedFrom_emit_ne {id id2 : String} (fn tid tn : String) (a : ℚ)
    (h : id ≠ id2) : emittedFrom id2 [⟨id, fn, tid, tn, a⟩] = 0 := by
  unfold emittedFrom
  simp [h]

theorem emittedTo_emit (fid fn id tn : String) (a : ℚ) :
    emittedTo id [⟨fid, fn, id, tn, a⟩] = a := by
  unfold emittedTo
  simp

theorem emittedTo_emit_ne {id id2 : String} (fid fn tn : String) (a : ℚ)
    (h : id ≠ id2) : emittedTo id2 [⟨fid, fn, id, tn, a⟩] = 0 := by
  unfold emittedTo
  simp [h]

/-- Core accounting of the greedy loop: under the invariant, every
working-list entry's suggestions cover its amount except for at most
the allowed dropped cents. -/
theorem greedy_bounds : ∀ ds cs : List Party, GInv ds cs → GBounds ds cs := by
  intro ds cs
  induction ds, cs using greedy.induct with
  | case1 cs =>
    intro hInv
    obtain ⟨hamD, hamC, htlD, htlC, hhd, hsum, hndD, hndC, hdisj⟩ := hInv
    cases cs with
    | nil =>
      refine ⟨?_, ?_, ?_, ?_⟩ <;> intro p hp <;> simp at hp
    | cons c cs =>
      exfalso
      have h1 : (0 : ℚ) < psum (c :: cs) := psum_pos hamC
      rw [← hsum, psum_nil] at h1
      exact absurd h1 (lt_irrefl 0)
  | case2 d ds =>
    intro hInv
    obtain ⟨hamD, hamC, htlD, htlC, hhd, hsum, hndD, hndC, hdisj⟩ := hInv
    exfalso
    have h1 : (0 : ℚ) < psum (d :: ds) := psum_pos hamD
    rw [hsum, psum_nil] at h1
    exact absurd h1 (lt_irrefl 0)
  | case3 d ds c cs ih1 ih2 ih3 ih4 =>
    intro hInv
    obtain ⟨hamD, hamC, htlD, htlC, hhd, hsum, hndD, hndC, hdisj⟩ := hInv
    have hdc : IsCent d.amount := (hamD d (List.mem_cons_self d ds)).1
    have hdge : 1/100 ≤ d.amount := (hamD d (List.mem_cons_self d ds)).2
    have hcc : IsCent c.amount := (hamC c (List.mem_cons_self c cs)).1
    have hcge : 1/100 ≤ c.amount := (hamC c (List.mem_cons_self c cs)).2
    have hdsge : ∀ p ∈ ds, 2/100 ≤ p.amount := fun p hp => htlD p hp
    have hcsge : ∀ p ∈ cs, 2/100 ≤ p.amount := fun p hp => htlC p hp
    have hamds : amountsOK ds := fun p hp => hamD p (List.mem_cons_of_mem d hp)
    have hamcs : amountsOK cs := fun p hp => hamC p (List.mem_cons_of_mem c hp)
    have hmge : 1/100 ≤ min d.amount c.amount := le_min hdge hcge
    have hmcent : IsCent (min d.amount c.amount) := hdc.min hcc
    have hdid : d.id ∉ ds.map Party.id := by
      rw [List.map_cons, List.nodup_cons] at hndD
      exact hndD.1
    have hndds : (ds.map Party.id).Nodup := by
      rw [List.map_cons, List.nodup_cons] at hndD
      exact hndD.2
    have hcid : c.id ∉ cs.map Party.id := by
      rw [List.map_cons, List.nodup_cons] at hndC
      exact hndC.1
    have hndcs : (cs.map Party.id).Nodup := by
      rw [List.map_cons, List.nodup_cons] at hndC
      exact hndC.2
    have hsum2 : d.amount + psum ds = c.amount + psum cs := by
      rw [← psum_cons, ← psum_cons]
      exact hsum
    by_cases h1 : d.amount - min d.amount c.amount < 1/100
    · have hda0 : d.amount - min d.amount c.amount = 0 :=
        (hdc.sub hmcent).eq_zero (sub_nonneg.mpr (min_le_left _ _)) h1
      have hmd : min d.amount c.amount = d.amount := by linarith
      by_cases h2 : c.amount - min d.amount c.amount < 1/100
      -- Branch A: both cursors advance.
      · have hca0 : c.amount - min d.amount c.amount = 0 :=
          (hcc.sub hmcent).eq_zero (sub_nonneg.mpr (min_le_right _ _)) h2
        have hmc : min d.amount c.amount = c.amount := by linarith
        have hgr : greedy (d :: ds) (c :: cs) =
            (if 1/100 < min d.amount c.amount then
              [{ fromId := d.id, fromName := d.name, toId := c.id,
                 toName := c.name, amount := round2 (min d.amount c.amount) }]
             else []) ++ greedy ds cs := by
          rw [greedy, dif_pos h1, dif_pos h2]
        have hInvA : GInv ds cs := by
          refine ⟨hamds, hamcs, ?_, ?_, ?_, ?_, hndds, hndcs, ?_⟩
          · exact fun p hp => hdsge p (List.mem_of_mem_tail hp)
          · exact fun p hp => hcsge p (List.mem_of_mem_tail hp)
          · exact fun d1 c1 hd1 hc1 => Or.inl (hdsge d1 (mem_of_headOpt hd1))
          · have hdceq : d.amount = c.amount := by linarith
            linarith [hsum2]
          · exact fun p hp q hq =>
              hdisj p (List.mem_cons_of_mem d hp) q (List.mem_cons_of_mem c hq)
        have hall := gbounds_all (ih1 hInvA)
        refine ⟨?_, ?_, ?_, ?_⟩
        · intro d0 hd0
          rw [List.head?_cons, Option.some_inj] at hd0
          subst hd0
          rw [hgr, emittedFrom_append, emittedFrom_greedy_zero hdid, add_zero]
          by_cases hm : 1/100 < min d.amount c.amount
          · rw [if_pos hm, emittedFrom_emit, round2_cent hmcent, hmd]
            exact ⟨by linarith [headAllow_ge (c :: cs)], le_refl _⟩
          · rw [if_neg hm, emittedFrom_nil]
            have hm1 : min d.amount c.amount = 1/100 :=
              le_antisymm (not_lt.mp hm) hmge
            have hd1 : d.amount = 1/100 := by rw [← hmd]; exact hm1
            constructor
            · rw [hd1]
              linarith [headAllow_ge (c :: cs)]
            · linarith
        · intro p hp
          have hpds : p ∈ ds := hp
          have hpne : d.id ≠ p.id := fun heq =>
            hdid (heq ▸ List.mem_map_of_mem Party.id hpds)
          rw [hgr, emittedFrom_append]
          have hE0 : emittedFrom p.id
              (if 1/100 < min d.amount c.amount then
                [{ fromId := d.id, fromName := d.name, toId := c.id,
                   toName := c.name, amount := round2 (min d.amount c.amount) }]
               else []) = 0 := by
            by_cases hm : 1/100 < min d.amount c.amount
            · rw [if_pos hm]
              exact emittedFrom_emit_ne _ _ _ _ hpne
            · rw [if_neg hm, emittedFrom_nil]
          rw [hE0, zero_add]
          exact hall.1 p hpds
        · intro c0 hc0
          rw [List.head?_cons, Option.some_inj] at hc0
          subst hc0
          rw [hgr, emittedTo_append, emittedTo_greedy_zero hcid, add_zero]
          by_cases hm : 1/100 < min d.amount c.amount
          · rw [if_pos hm, emittedTo_emit, round2_cent hmcent, hmc]
            exact ⟨by linarith [headAllow_ge (d :: ds)], le_refl _⟩
          · rw [if_neg hm, emittedTo_nil]
            have hm1 : min d.amount c.amount = 1/100 :=
              le_antisymm (not_lt.mp hm) hmge
            have hc1 : c.amount = 1/100 := by rw [← hmc]; exact hm1
            constructor
            · rw [hc1]
              linarith [headAllow_ge (d :: ds)]
            · linarith
        · intro p hp
          have hpcs : p ∈ cs := hp
          have hpne : c.id ≠ p.id := fun heq =>
            hcid (heq ▸ List.mem_map_of_mem Party.id hpcs)
          rw [hgr, emittedTo_append]
          have hE0 : emittedTo p.id
              (if 1/100 < min d.amount c.amount then
                [{ fromId := d.id, fromName := d.name, toId := c.id,
                   toName := c.name, amount := round2 (min d.amount c.amount) }]
               else []) = 0 := by
            by_cases hm : 1/100 < min d.amount c.amount
            · rw [if_pos hm]
              exact emittedTo_emit_ne _ _ _ _ hpne
            · rw [if_neg hm, emittedTo_nil]
          rw [hE0, zero_add]
          exact hall.2 p hpcs
      -- Branch B: debtor cursor advances, creditor head is reduced.
      · have hca_ge : 1/100 ≤ c.amount - min d.amount c.amount := not_lt.mp h2
        have hgr : greedy (d :: ds) (c :: cs) =
            (if 1/100 < min d.amount c.amount then
              [{ fromId := d.id, fromName := d.name, toId := c.id,
                 toName := c.name, amount := round2 (min d.amount c.amount) }]
             else []) ++
            greedy ds
              ({ c with amount := c.amount - min d.amount c.amount } :: cs) := by
          rw [greedy, dif_pos h1, dif_neg h2]
        have hInvB : GInv ds
            ({ c with amount := c.amount - min d.amount c.amount } :: cs) := by
          refine ⟨hamds, ?_, ?_, ?_, ?_, ?_, hndds, ?_, ?_⟩
          · intro p hp
            rcases List.mem_cons.mp hp with rfl | hp2
            · exact ⟨hcc.sub hmcent, hca_ge⟩
            · exact hamcs p hp2
          · exact fun p hp => hdsge p (List.mem_of_mem_tail hp)
          · exact fun p hp => hcsge p hp
          · exact fun d1 c1 hd1 hc1 => Or.inl (hdsge d1 (mem_of_headOpt hd1))
          · rw [psum_cons]
            show psum ds = c.amount - min d.amount c.amount + psum cs
            linarith [hsum2, hmd]
          · exact hndC
          · intro p hp q hq
            rcases List.mem_cons.mp hq with rfl | hq2
            · exact hdisj p (List.mem_cons_of_mem d hp) c
                (List.mem_cons_self c cs)
            · exact hdisj p (List.mem_cons_of_mem d hp) q
                (List.mem_cons_of_mem c hq2)
        have ihB := ih2 hInvB
        have hallB := gbounds_all ihB
        refine ⟨?_, ?_, ?_, ?_⟩
        · intro d0 hd0
          rw [List.head?_cons, Option.some_inj] at hd0
          subst hd0
          rw [hgr, emittedFrom_append, emittedFrom_greedy_zero hdid, add_zero]
          by_cases hm : 1/100 < min d.amount c.amount
          · rw [if_pos hm, emittedFrom_emit, round2_cent hmcent, hmd]
            exact ⟨by linarith [headAllow_ge (c :: cs)], le_refl _⟩
          · rw [if_neg hm, emittedFrom_nil]
            have hm1 : min d.amount c.amount = 1/100 :=
              le_antisymm (not_lt.mp hm) hmge
            have hd1 : d.amount = 1/100 := by rw [← hmd]; exact hm1
            constructor
            · rw [hd1]
              linarith [headAllow_ge (c :: cs)]
            · linarith
        · intro p hp
          have hpds : p ∈ ds := hp
          have hpne : d.id ≠ p.id := fun heq =>
            hdid (heq ▸ List.mem_map_of_mem Party.id hpds)
          rw [hgr, emittedFrom_append]
          have hE0 : emittedFrom p.id
              (if 1/100 < min d.amount c.amount then
                [{ fromId := d.id, fromName := d.name, toId := c.id,
                   toName := c.name, amount := round2 (min d.amount c.amount) }]
               else []) = 0 := by
            by_cases hm : 1/100 < min d.amount c.amount
            · rw [if_pos hm]
              exact emittedFrom_emit_ne _ _ _ _ hpne
            · rw [if_neg hm, emittedFrom_nil]
          rw [hE0, zero_add]
          exact hallB.1 p hpds
        · intro c0 hc0
          rw [List.head?_cons, Option.some_inj] at hc0
          subst hc0
          rw [hgr, emittedTo_append]
          have hrec := (ihB.2.2.1)
            { c with amount := c.amount - min d.amount c.amount }
            List.head?_cons
          have hrec2 : c.amount - min d.amount c.amount - headAllow ds ≤
              emittedTo c.id (greedy ds
                ({ c with amount := c.amount - min d.amount c.amount } :: cs)) ∧
              emittedTo c.id (greedy ds
                ({ c with amount := c.amount - min d.amount c.amount } :: cs)) ≤
                c.amount - min d.amount c.amount := hrec
          have hha : headAllow ds = 1/100 := headAllow_of_fresh hdsge
          rw [hha] at hrec2
          by_cases hm : 1/100 < min d.amount c.amount
          · rw [if_pos hm, emittedTo_emit, round2_cent hmcent]
            constructor
            · linarith [headAllow_ge (d :: ds), hrec2.1]
            · linarith [hrec2.2]
          · rw [if_neg hm, emittedTo_nil, zero_add]
            have hm1 : min d.amount c.amount = 1/100 :=
              le_antisymm (not_lt.mp hm) hmge
            have hd1 : d.amount = 1/100 := by rw [← hmd]; exact hm1
            have hhacons : headAllow (d :: ds) = 2/100 :=
              headAllow_cons_lt ds (by rw [hd1]; norm_num)
            rw [hhacons]
            constructor
            · linarith [hrec2.1]
            · linarith [hrec2.2]
        · intro p hp
          have hpcs : p ∈ cs := hp
          have hpne : c.id ≠ p.id := fun heq =>
            hcid (heq ▸ List.mem_map_of_mem Party.id hpcs)
          rw [hgr, emittedTo_append]
          have hE0 : emittedTo p.id
              (if 1/100 < min d.amount c.amount then
                [{ fromId := d.id, fromName := d.name, toId := c.id,
                   toName := c.name, amount := round2 (min d.amount c.amount) }]
               else []) = 0 := by
            by_cases hm : 1/100 < min d.amount c.amount
            · rw [if_pos hm]
              exact emittedTo_emit_ne _ _ _ _ hpne
            · rw [if_neg hm, emittedTo_nil]
          rw [hE0, zero_add]
          exact ihB.2.2.2 p hpcs
    · have hda_ge : 1/100 ≤ d.amount - min d.amount c.amount := not_lt.mp h1
      by_cases h2 : c.amount - min d.amount c.amount < 1/100
      -- Branch C: creditor cursor advances, debtor head is reduced.
      · have hca0 : c.amount - min d.amount c.amount = 0 :=
          (hcc.sub hmcent).eq_zero (sub_nonneg.mpr (min_le_right _ _)) h2
        have hmc : min d.amount c.amount = c.amount := by linarith
        have hgr : greedy (d :: ds) (c :: cs) =
            (if 1/100 < min d.amount c.amount then
              [{ fromId := d.id, fromName := d.name, toId := c.id,
                 toName := c.name, amount := round2 (min d.amount c.amount) }]
             else []) ++
            greedy ({ d with amount := d.amount - min d.amount c.amount } :: ds)
              cs := by
          rw [greedy, dif_neg h1, dif_pos h2]
        have hInvC : GInv
            ({ d with amount := d.amount - min d.amount c.amount } :: ds) cs := by
          refine ⟨?_, hamcs, ?_, ?_, ?_, ?_, ?_, hndcs, ?_⟩
          · intro p hp
            rcases List.mem_cons.mp hp with rfl | hp2
            · exact ⟨hdc.sub hmcent, hda_ge⟩
            · exact hamds p hp2
          · exact fun p hp => hdsge p hp
          · exact fun p hp => hcsge p (List.mem_of_mem_tail hp)
          · exact fun d1 c1 hd1 hc1 => Or.inr (hcsge c1 (mem_of_headOpt hc1))
          · rw [psum_cons]
            show d.amount - min d.amount c.amount + psum ds = psum cs
            linarith [hsum2, hmc]
          · exact hndD
          · intro p hp q hq
            rcases List.mem_cons.mp hp with rfl | hp2
            · exact hdisj d (List.mem_cons_self d ds) q
                (List.mem_cons_of_mem c hq)
            · exact hdisj p (List.mem_cons_of_mem d hp2) q
                (List.mem_cons_of_mem c hq)
        have ihC := ih3 hInvC
        have hallC := gbounds_all ihC
        refine ⟨?_, ?_, ?_, ?_⟩
        · intro d0 hd0
          rw [List.head?_cons, Option.some_inj] at hd0
          subst hd0
          rw [hgr, emittedFrom_append]
          have hrec := (ihC.1)
            { d with amount := d.amount - min d.amount c.amount }
            List.head?_cons
          have hrec2 : d.amount - min d.amount c.amount - headAllow cs ≤
              emittedFrom d.id (greedy
                ({ d with amount := d.amount - min d.amount c.amount } :: ds)
                cs) ∧
              emittedFrom d.id (greedy
                ({ d with amount := d.amount - min d.amount c.amount } :: ds)
                cs) ≤ d.amount - min d.amount c.amount := hrec
          have hha : headAllow cs = 1/100 := headAllow_of_fresh hcsge
          rw [hha] at hrec2
          by_cases hm : 1/100 < min d.amount c.amount
          · rw [if_pos hm, emittedFrom_emit, round2_cent hmcent]
            constructor
            · linarith [headAllow_ge (c :: cs), hrec2.1]
            · linarith [hrec2.2]
          · rw [if_neg hm, emittedFrom_nil, zero_add]
            have hm1 : min d.amount c.amount = 1/100 :=
              le_antisymm (not_lt.mp hm) hmge
            have hc1 : c.amount = 1/100 := by rw [← hmc]; exact hm1
            have hhacons : headAllow (c :: cs) = 2/100 :=
              headAllow_cons_lt cs (by rw [hc1]; norm_num)
            rw [hhacons]
            constructor
            · linarith [hrec2.1]
            · linarith [hrec2.2]
        · intro p hp
          have hpds : p ∈ ds := hp
          have hpne : d.id ≠ p.id := fun heq =>
            hdid (heq ▸ List.mem_map_of_mem Party.id hpds)
          rw [hgr, emittedFrom_append]
          have hE0 : emittedFrom p.id
              (if 1/100 < min d.amount c.amount then
                [{ fromId := d.id, fromName := d.name, toId := c.id,
                   toName := c.name, amount := round2 (min d.amount c.amount) }]
               else []) = 0 := by
            by_cases hm : 1/100 < min d.amount c.amount
            · rw [if_pos hm]
              exact emittedFrom_emit_ne _ _ _ _ hpne
            · rw [if_neg hm, emittedFrom_nil]
          rw [hE0, zero_add]
          exact hallC.1 p (List.mem_cons_of_mem _ hpds)
        · intro c0 hc0
          rw [List.head?_cons, Option.some_inj] at hc0
          subst hc0
          rw [hgr, emittedTo_append, emittedTo_greedy_zero hcid, add_zero]
          by_cases hm : 1/100 < min d.amount c.amount
          · rw [if_pos hm, emittedTo_emit, round2_cent hmcent, hmc]
            exact ⟨by linarith [headAllow_ge (d :: ds)], le_refl _⟩
          · rw [if_neg hm, emittedTo_nil]
            have hm1 : min d.amount c.amount = 1/100 :=
              le_antisymm (not_lt.mp hm) hmge
            have hc1 : c.amount = 1/100 := by rw [← hmc]; exact hm1
            constructor
            · rw [hc1]
              linarith [headAllow_ge (d :: ds)]
            · linarith
        · intro p hp
          have hpcs : p ∈ cs := hp
          have hpne : c.id ≠ p.id := fun heq =>
            hcid (heq ▸ List.mem_map_of_mem Party.id hpcs)
          rw [hgr, emittedTo_append]
          have hE0 : emittedTo p.id
              (if 1/100 < min d.amount c.amount then
                [{ fromId := d.id, fromName := d.name, toId := c.id,
                   toName := c.name, amount := round2 (min d.amount c.amount) }]
               else []) = 0 := by
            by_cases hm : 1/100 < min d.amount c.amount
            · rw [if_pos hm]
              exact emittedTo_emit_ne _ _ _ _ hpne
            · rw [if_neg hm, emittedTo_nil]
          rw [hE0, zero_add]
          exact hallC.2 p hpcs
      -- Branch D: unreachable.
      · rcases min_branch d c with h | h
        · exact absurd h h1
        · exact absurd h h2

theorem balances_ids (members : List Member) (expenses : List Expense)
    (settlements : List Settlement) :
    (calculateBalances members expenses settlements).map BalanceEntry.memberId =
      members.map Member.id := by
  rw [calculateBalances_eq, List.map_map]
  rfl

theorem netBalance_append (expenses : List Expense)
    (s1 s2 : List Settlement) (id : String) :
    netBalance expenses (s1 ++ s2) id =
      netBalance expenses s1 id + fromFor s2 id - toFor s2 id := by
  unfold netBalance fromFor toFor
  rw [List.map_append, List.sum_append, List.map_append, List.sum_append]
  ring

theorem fromFor_map_sug (txs : List TransactionSuggestion) (id : String) :
    fromFor (txs.map sugToSettlement) id = emittedFrom id txs := by
  unfold fromFor emittedFrom sugToSettlement
  rw [List.map_map]
  rfl

theorem toFor_map_sug (txs : List TransactionSuggestion) (id : String) :
    toFor (txs.map sugToSettlement) id = emittedTo id txs := by
  unfold toFor emittedTo sugToSettlement
  rw [List.map_map]
  rfl

theorem emittedFrom_isCent (id : String) (txs : List TransactionSuggestion)
    (h : ∀ t ∈ txs, IsCent t.amount) : IsCent (emittedFrom id txs) := by
  induction txs with
  | nil => exact IsCent.zero
  | cons t txs ih =>
    unfold emittedFrom at ih ⊢
    rw [List.map_cons, List.sum_cons]
    refine IsCent.add ?_ (ih fun t2 ht2 => h t2 (List.mem_cons_of_mem t ht2))
    by_cases hf : t.fromId = id
    · rw [if_pos hf]
      exact h t (List.mem_cons_self t txs)
    · rw [if_neg hf]
      exact IsCent.zero

theorem emittedTo_isCent (id : String) (txs : List TransactionSuggestion)
    (h : ∀ t ∈ txs, IsCent t.amount) : IsCent (emittedTo id txs) := by
  induction txs with
  | nil => exact IsCent.zero
  | cons t txs ih =>
    unfold emittedTo at ih ⊢
    rw [List.map_cons, List.sum_cons]
    refine IsCent.add ?_ (ih fun t2 ht2 => h t2 (List.mem_cons_of_mem t ht2))
    by_cases hf : t.toId = id
    · rw [if_pos hf]
      exact h t (List.mem_cons_self t txs)
    · rw [if_neg hf]
      exact IsCent.zero

theorem greedy_amounts_cent (ds cs : List Party) :
    ∀ t ∈ greedy ds cs, IsCent t.amount := by
  intro t ht
  obtain ⟨a, _, hta⟩ := greedy_amounts ds cs t ht
  rw [hta]
  exact isCent_round2 a

/-- Counterexample to C2 as stated: on this six-member group the loop
twice silently drops an exact one-cent match against member "b", so
after recording all suggestions as settlements "b" still holds 0.02. -/
theorem c2_counterexample :
    ¬ (∀ b ∈ calculateBalances
        [⟨"a", "A"⟩, ⟨"b", "B"⟩, ⟨"c", "C"⟩, ⟨"d", "D"⟩, ⟨"e", "E"⟩, ⟨"f", "F"⟩]
        [⟨"a", 6/100, [⟨"d", 6/100⟩]⟩,
         ⟨"b", 5/100, [⟨"d", 1/100⟩, ⟨"e", 3/100⟩, ⟨"f", 1/100⟩]⟩,
         ⟨"c", 2/100, [⟨"f", 2/100⟩]⟩]
        ([] ++ (calculateMinimumTransactions
            [⟨"a", "A"⟩, ⟨"b", "B"⟩, ⟨"c", "C"⟩, ⟨"d", "D"⟩, ⟨"e", "E"⟩, ⟨"f", "F"⟩]
            [⟨"a", 6/100, [⟨"d", 6/100⟩]⟩,
             ⟨"b", 5/100, [⟨"d", 1/100⟩, ⟨"e", 3/100⟩, ⟨"f", 1/100⟩]⟩,
             ⟨"c", 2/100, [⟨"f", 2/100⟩]⟩]
            []).map sugToSettlement),
        |b.balance| ≤ 1/100) := by
  rw [calcMin_eq_fuel]
  decide

set_option maxHeartbeats 2000000 in
/-- C2 (amended): when member ids are distinct and the creditor and
debtor working totals agree (as they do for any balance list summing to
zero entry-wise), recording every suggestion as a settlement and
recomputing leaves every balance within ±0.02 of zero. -/
theorem c2_settlement_clears (members : List Member) (expenses : List Expense)
    (settlements : List Settlement)
    (hnd : (members.map Member.id).Nodup)
    (hbal : psum (debtorsOf (calculateBalances members expenses settlements)) =
        psum (creditorsOf (calculateBalances members expenses settlements))) :
    ∀ b ∈ calculateBalances members expenses
        (settlements ++ (calculateMinimumTransactions members expenses
            settlements).map sugToSettlement),
      |b.balance| ≤ 2/100 := by
  have hbsnd : ((calculateBalances members expenses settlements).map
      BalanceEntry.memberId).Nodup := by
    rw [balances_ids]
    exact hnd
  have hdebtor_id : ∀ id ∈ (sortDesc (debtorsOf
      (calculateBalances members expenses settlements))).map Party.id,
      round2 (netBalance expenses settlements id) < -(1/100) := by
    intro id hid
    rw [(sortDesc_ids_perm _).mem_iff] at hid
    obtain ⟨p, hp, rfl⟩ := List.mem_map.mp hid
    obtain ⟨bd, hbd, hlt, rfl⟩ := mem_debtorsOf.mp hp
    have := balance_determined bd hbd
    show round2 (netBalance expenses settlements bd.memberId) < -(1/100)
    rw [← this]
    exact hlt
  have hcreditor_id : ∀ id ∈ (sortDesc (creditorsOf
      (calculateBalances members expenses settlements))).map Party.id,
      1/100 < round2 (netBalance expenses settlements id) := by
    intro id hid
    rw [(sortDesc_ids_perm _).mem_iff] at hid
    obtain ⟨p, hp, rfl⟩ := List.mem_map.mp hid
    obtain ⟨bc, hbc, hgt, rfl⟩ := mem_creditorsOf.mp hp
    have := balance_determined bc hbc
    show 1/100 < round2 (netBalance expenses settlements bc.memberId)
    rw [← this]
    exact hgt
  have hInv : GInv
      (sortDesc (debtorsOf (calculateBalances members expenses settlements)))
      (sortDesc (creditorsOf (calculateBalances members expenses settlements))) := by
    have hDcents : ∀ p ∈ sortDesc (debtorsOf
        (calculateBalances members expenses settlements)),
        IsCent p.amount ∧ 2/100 ≤ p.amount := by
      intro p hp
      rw [mem_sortDesc] at hp
      obtain ⟨bd, hbd, hlt, rfl⟩ := mem_debtorsOf.mp hp
      have hcent : IsCent bd.balance := by
        rw [balance_determined bd hbd]
        exact isCent_round2 _
      have hcent2 : IsCent (-bd.balance) := hcent.neg
      exact ⟨hcent2, hcent2.two_le (by linarith)⟩
    have hCcents : ∀ p ∈ sortDesc (creditorsOf
        (calculateBalances members expenses settlements)),
        IsCent p.amount ∧ 2/100 ≤ p.amount := by
      intro p hp
      rw [mem_sortDesc] at hp
      obtain ⟨bc, hbc, hgt, rfl⟩ := mem_creditorsOf.mp hp
      have hcent : IsCent bc.balance := by
        rw [balance_determined bc hbc]
        exact isCent_round2 _
      exact ⟨hcent, hcent.two_le hgt⟩
    refine ⟨?_, ?_, ?_, ?_, ?_, ?_, ?_, ?_, ?_⟩
    · exact fun p hp => ⟨(hDcents p hp).1, by linarith [(hDcents p hp).2]⟩
    · exact fun p hp => ⟨(hCcents p hp).1, by linarith [(hCcents p hp).2]⟩
    · exact fun p hp => (hDcents p (List.mem_of_mem_tail hp)).2
    · exact fun p hp => (hCcents p (List.mem_of_mem_tail hp)).2
    · exact fun d1 c1 hd1 hc1 =>
        Or.inl (hDcents d1 (mem_of_headOpt hd1)).2
    · rw [psum_sortDesc, psum_sortDesc]
      exact hbal
    · exact ((sortDesc_ids_perm _).nodup_iff).mpr
        ((debtorsOf_ids_sublist _).nodup hbsnd)
    · exact ((sortDesc_ids_perm _).nodup_iff).mpr
        ((creditorsOf_ids_sublist _).nodup hbsnd)
    · intro p hp q hq heq
      have h1 := hdebtor_id p.id (List.mem_map_of_mem Party.id hp)
      have h2 := hcreditor_id q.id (List.mem_map_of_mem Party.id hq)
      rw [heq] at h1
      linarith
  have hall := gbounds_all (greedy_bounds _ _ hInv)
  intro b hb
  rw [calculateBalances_eq] at hb
  obtain ⟨m, hm, rfl⟩ := List.mem_map.mp hb
  show |round2 (netBalance expenses
      (settlements ++ (calculateMinimumTransactions members expenses
        settlements).map sugToSettlement) m.id)| ≤ 2/100
  have hT : calculateMinimumTransactions members expenses settlements =
      greedy
        (sortDesc (debtorsOf (calculateBalances members expenses settlements)))
        (sortDesc (creditorsOf (calculateBalances members expenses settlements))) :=
    rfl
  rw [netBalance_append, fromFor_map_sug, toFor_map_sug, hT]
  have hcents : ∀ t ∈ greedy
      (sortDesc (debtorsOf (calculateBalances members expenses settlements)))
      (sortDesc (creditorsOf (calculateBalances members expenses settlements))),
      IsCent t.amount := greedy_amounts_cent _ _
  have hEF := emittedFrom_isCent m.id _ hcents
  have hET := emittedTo_isCent m.id _ hcents
  rw [show netBalance expenses settlements m.id +
      emittedFrom m.id (greedy
        (sortDesc (debtorsOf (calculateBalances members expenses settlements)))
        (sortDesc (creditorsOf (calculateBalances members expenses settlements)))) -
      emittedTo m.id (greedy
        (sortDesc (debtorsOf (calculateBalances members expenses settlements)))
        (sortDesc (creditorsOf (calculateBalances members expenses settlements)))) =
      netBalance expenses settlements m.id +
      (emittedFrom m.id (greedy
        (sortDesc (debtorsOf (calculateBalances members expenses settlements)))
        (sortDesc (creditorsOf (calculateBalances members expenses settlements)))) -
        emittedTo m.id (greedy
          (sortDesc (debtorsOf (calculateBalances members expenses settlements)))
          (sortDesc (creditorsOf (calculateBalances members expenses settlements)))))
    from by ring, round2_add_cent _ (hEF.sub hET)]
  by_cases hgt : 1/100 < round2 (netBalance expenses settlements m.id)
  · -- m is a creditor: it receives its balance up to two cents, pays nothing.
    have hbE : (⟨m.id, m.name,
        round2 (netBalance expenses settlements m.id)⟩ : BalanceEntry) ∈
        calculateBalances members expenses settlements := by
      rw [calculateBalances_eq]
      exact List.mem_map_of_mem _ hm
    have hq : (⟨m.id, m.name, round2 (netBalance expenses settlements m.id)⟩ :
        Party) ∈ sortDesc (creditorsOf
          (calculateBalances members expenses settlements)) := by
      rw [mem_sortDesc]
      exact mem_creditorsOf.mpr ⟨_, hbE, hgt, rfl⟩
    have hbounds : round2 (netBalance expenses settlements m.id) - 2/100 ≤
        emittedTo m.id (greedy
          (sortDesc (debtorsOf (calculateBalances members expenses settlements)))
          (sortDesc (creditorsOf (calculateBalances members expenses settlements)))) ∧
        emittedTo m.id (greedy
          (sortDesc (debtorsOf (calculateBalances members expenses settlements)))
          (sortDesc (creditorsOf (calculateBalances members expenses settlements)))) ≤
          round2 (netBalance expenses settlements m.id) := hall.2 _ hq
    have hEF0 : emittedFrom m.id (greedy
        (sortDesc (debtorsOf (calculateBalances members expenses settlements)))
        (sortDesc (creditorsOf (calculateBalances members expenses settlements)))) =
        0 := by
      refine emittedFrom_greedy_zero fun hmem2 => ?_
      have := hdebtor_id m.id hmem2
      linarith
    rw [hEF0]
    rw [abs_le]
    exact ⟨by linarith [hbounds.2], by linarith [hbounds.1]⟩
  · by_cases hlt : round2 (netBalance expenses settlements m.id) < -(1/100)
    · -- m is a debtor: it pays its owed amount up to two cents.
      have hbE : (⟨m.id, m.name,
          round2 (netBalance expenses settlements m.id)⟩ : BalanceEntry) ∈
          calculateBalances members expenses settlements := by
        rw [calculateBalances_eq]
        exact List.mem_map_of_mem _ hm
      have hq : (⟨m.id, m.name,
          -round2 (netBalance expenses settlements m.id)⟩ : Party) ∈
          sortDesc (debtorsOf
            (calculateBalances members expenses settlements)) := by
        rw [mem_sortDesc]
        exact mem_debtorsOf.mpr ⟨_, hbE, hlt, rfl⟩
      have hbounds : -round2 (netBalance expenses settlements m.id) - 2/100 ≤
          emittedFrom m.id (greedy
            (sortDesc (debtorsOf (calculateBalances members expenses settlements)))
            (sortDesc (creditorsOf (calculateBalances members expenses settlements)))) ∧
          emittedFrom m.id (greedy
            (sortDesc (debtorsOf (calculateBalances members expenses settlements)))
            (sortDesc (creditorsOf (calculateBalances members expenses settlements)))) ≤
            -round2 (netBalance expenses settlements m.id) := hall.1 _ hq
      have hET0 : emittedTo m.id (greedy
          (sortDesc (debtorsOf (calculateBalances members expenses settlements)))
          (sortDesc (creditorsOf (calculateBalances members expenses settlements)))) =
          0 := by
        refine emittedTo_greedy_zero fun hmem2 => ?_
        have := hcreditor_id m.id hmem2
        linarith
      rw [hET0]
      rw [abs_le]
      exact ⟨by linarith [hbounds.1], by linarith [hbounds.2]⟩
    · -- m is settled: it is involved in no suggestion.
      have hEF0 : emittedFrom m.id (greedy
          (sortDesc (debtorsOf (calculateBalances members expenses settlements)))
          (sortDesc (creditorsOf (calculateBalances members expenses settlements)))) =
          0 := by
        refine emittedFrom_greedy_zero fun hmem2 => ?_
        exact hlt (hdebtor_id m.id hmem2)
      have hET0 : emittedTo m.id (greedy
          (sortDesc (debtorsOf (calculateBalances members expenses settlements)))
          (sortDesc (creditorsOf (calculateBalances members expenses settlements)))) =
          0 := by
        refine emittedTo_greedy_zero fun hmem2 => ?_
        exact hgt (hcreditor_id m.id hmem2)
      rw [hEF0, hET0]
      rw [abs_le]
      constructor
      · have h1 : -(1/100) ≤ round2 (netBalance expenses settlements m.id) :=
          not_lt.mp hlt
        linarith
      · have h2 : round2 (netBalance expenses settlements m.id) ≤ 1/100 :=
          not_lt.mp hgt
        linarith

/-- Witness for the amended C2 at a concrete input. -/
theorem c2_witness :
    |((calculateBalances [⟨"a", "A"⟩, ⟨"b", "B"⟩] [⟨"a", 10, [⟨"b", 10⟩]⟩]
        ([] ++ (calculateMinimumTransactions [⟨"a", "A"⟩, ⟨"b", "B"⟩]
            [⟨"a", 10, [⟨"b", 10⟩]⟩] []).map sugToSettlement)).headD
        ⟨"x", "X", 37⟩).balance| ≤ 2/100 :=
  c2_settlement_clears [⟨"a", "A"⟩, ⟨"b", "B"⟩] [⟨"a", 10, [⟨"b", 10⟩]⟩] []
    (by decide) (by decide) _ (by rw [calcMin_eq_fuel]; decide)
